import Mathlib

/-!
Verification of the octobuild cache and MSVC argument parser.

The cache (src/cache.rs) is modelled over byte lists: file contents are
values of type `List Nat` (each element one byte), the cache entry file is
the byte list produced by `write_cache`, and the reader `read_cache` is a
pure parser returning the list of output-file contents it writes back out.
The MSVC command-line analysis (src/vs/prepare.rs) is modelled over
`List String` argv vectors.
-/

deriving instance DecidableEq for Except

namespace Octobuild

/-- Cache entry magic, bytes of `b"OBCF\x00\x01"` (src/cache.rs `HEADER`). -/
def HEADER : List Nat := [79, 66, 67, 70, 0, 1]

/-- Little-endian 16-bit encoding, as written by `write_le_u16`. -/
def le16 (n : Nat) : List Nat := [n % 256, n / 256 % 256]

/-- Little-endian 32-bit encoding, as written by `write_le_u32`. -/
def le32 (n : Nat) : List Nat :=
  [n % 256, n / 256 % 256, n / 65536 % 256, n / 16777216 % 256]

/-- Bytes of the cache entry produced by `write_cache` (src/cache.rs:51-61):
the header, the output count as `u16` (the Rust `as u16` cast truncates
modulo 2^16), then for each output file its length as `u32` (`as u32`
truncates modulo 2^32) followed by its contents. -/
def write_cache (outputs : List (List Nat)) : List Nat :=
  HEADER ++ le16 (outputs.length % 65536) ++
    (outputs.map fun c => le32 (c.length % 4294967296) ++ c).flatten

/-- Model of `Reader::read_exact(n)`: exactly `n` bytes or failure. -/
def readExact : Nat → List Nat → Option (List Nat × List Nat)
  | 0, s => some ([], s)
  | _ + 1, [] => none
  | n + 1, b :: s =>
    match readExact n s with
    | some (c, r) => some (b :: c, r)
    | none => none

/-- Model of `read_le_u16`. -/
def read_le_u16 : List Nat → Option (Nat × List Nat)
  | b0 :: b1 :: s => some (b0 + 256 * b1, s)
  | _ => none

/-- Model of `read_le_u32`. -/
def read_le_u32 : List Nat → Option (Nat × List Nat)
  | b0 :: b1 :: b2 :: b3 :: s =>
    some (b0 + 256 * b1 + 65536 * b2 + 16777216 * b3, s)
  | _ => none

/-- Errors of the cache reader: `eof` stands for the `IoError` raised by a
failing `read_exact`/`read_le_*`, the other two for the `InvalidInput`
errors deliberately raised by `read_cache`; `notFound` for a missing
entry file (`File::open` failure in `run_cached`). -/
inductive CacheError where
  | eof
  | invalidHeader
  | invalidCount
  | notFound
  deriving DecidableEq, Repr

/-- Model of `read_cache` (src/cache.rs:63-85) on the entry bytes `data`
for a caller expecting `n` output files: checks the 6-byte magic, checks
the little-endian `u16` count against `n`, then reads `n` length-prefixed
payloads.  Returns the contents written to the `n` output paths in order. -/
def read_files : Nat → List Nat → Except CacheError (List (List Nat))
  | 0, _ => .ok []
  | n + 1, s =>
    match read_le_u32 s with
    | none => .error .eof
    | some (size, s1) =>
      match readExact size s1 with
      | none => .error .eof
      | some (content, s2) => (read_files n s2).map (content :: ·)

/-- See `read_files`; this is the entry point matching `read_cache`. -/
def read_cache (data : List Nat) (n : Nat) : Except CacheError (List (List Nat)) :=
  match readExact 6 data with
  | none => .error .eof
  | some (hdr, s1) =>
    if hdr ≠ HEADER then .error .invalidHeader
    else
      match read_le_u16 s1 with
      | none => .error .eof
      | some (cnt, s2) =>
        if cnt ≠ n then .error .invalidCount
        else read_files n s2

/-- Outcome of one `run_cached` call: whether it returned `Ok`, how often
the worker closure was invoked, and the entry bytes at the fingerprint
path afterwards (`none` when the entry file does not exist). -/
structure RunOutcome where
  ok : Bool
  workerCalls : Nat
  entryAfter : Option (List Nat)
  deriving DecidableEq, Repr

/-- Reading the entry at the fingerprint path: a missing file makes
`File::open` fail, otherwise `read_cache` parses the bytes. -/
def readEntry (entry : Option (List Nat)) (n : Nat) : Except CacheError (List (List Nat)) :=
  match entry with
  | none => .error .notFound
  | some data => read_cache data n

/-- Model of `Cache::run_cached` (src/cache.rs:18-31).  `entry` is the
current content of the cache file for the computed fingerprint, `n` the
number of output paths, and `worker` the worker closure, abstracted as
either a failure or the list of output-file contents it produces.  Any
`read_cache` failure is discarded (`Err(_) => {}`) and the task is run;
on worker success the produced outputs are packed into a fresh entry. -/
def run_cached (entry : Option (List Nat)) (n : Nat)
    (worker : Except Unit (List (List Nat))) : RunOutcome :=
  match readEntry entry n with
  | .ok _ => ⟨true, 0, entry⟩
  | .error _ =>
    match worker with
    | .error _ => ⟨false, 1, entry⟩
    | .ok produced => ⟨true, 1, some (write_cache produced)⟩

/-- Filesystem operations performed by `write_cache`, in order. -/
inductive FsOp where
  | create (path : String)
  | writeBytes (bytes : List Nat)
  | rename (src : String) (dst : String)
  deriving DecidableEq, Repr

/-- Trace of filesystem operations performed by `write_cache`
(src/cache.rs:51-61): `File::create` directly on the given entry path,
then a `write` of the header, the count, and each output's length and
contents in turn. -/
def write_cache_trace (path : String) (outputs : List (List Nat)) : List FsOp :=
  FsOp.create path :: FsOp.writeBytes HEADER ::
    FsOp.writeBytes (le16 (outputs.length % 65536)) ::
    (outputs.map fun c =>
      [FsOp.writeBytes (le32 (c.length % 4294967296)), FsOp.writeBytes c]).flatten

/-- Whether an operation is a rename. -/
def FsOp.isRename : FsOp → Bool
  | .rename _ _ => true
  | _ => false

/-- The byte payload of a write operation. -/
def FsOp.payload : FsOp → Option (List Nat)
  | .writeBytes b => some b
  | _ => none

/-! MSVC argument parser (src/vs/prepare.rs). Strings are handled through
their character lists; Rust's ASCII byte slicing on these flags agrees
with character-wise slicing. -/

/-- Argument scopes (crate::compiler::Scope; declared outside src/, the
constructors are fixed by the spec data model and by their uses in
src/vs/prepare.rs). -/
inductive Scope where
  | Preprocessor
  | Compiler
  | Shared
  | Ignore
  deriving DecidableEq, Repr

/-- Input kinds of the `Arg` model. -/
inductive InputKind where
  | Source
  | Precompiled
  | Marker
  deriving DecidableEq, Repr

/-- Output kinds of the `Arg` model. -/
inductive OutputKind where
  | Object
  | Marker
  deriving DecidableEq, Repr

/-- Parsed-argument model (crate::compiler::Arg; declared outside src/,
modelled from the spec data model in §3: Input/Output/Flag/Param). -/
inductive Arg where
  | Input (kind : InputKind) (flag : String) (file : String)
  | Output (kind : OutputKind) (flag : String) (file : String)
  | Flag (scope : Scope) (name : String)
  | Param (scope : Scope) (flag : String) (value : String) (spaced : Bool)
  deriving DecidableEq, Repr

/-- Character-list test that `pat` is a prefix of `s`. -/
def listBegins : List Char → List Char → Bool
  | [], _ => true
  | _ :: _, [] => false
  | p :: ps, c :: cs => decide (p = c) && listBegins ps cs

/-- Model of Rust `str::starts_with` on these ASCII flags. -/
def strBegins (s pat : String) : Bool := listBegins pat.toList s.toList

/-- Model of the byte slicing `&s[n..]` on these ASCII flags. -/
def strDrop (n : Nat) (s : String) : String := ⟨s.toList.drop n⟩

/-- Model of `has_param_prefix` (src/vs/prepare.rs:308-310): a token is a
flag iff it starts with a slash or dash sigil. -/
def has_param_sigil (arg : String) : Bool :=
  strBegins arg "/" || strBegins arg "-"

/-- Model of `is_spaceable_param` (src/vs/prepare.rs:289-306), with the
prefixes tried in the source order. -/
def is_spaceable_param (flag : String) : Option (String × Scope) :=
  if strBegins flag "D" then some ("D", Scope.Shared)
  else if strBegins flag "I" then some ("I", Scope.Preprocessor)
  else if strBegins flag "sourceDependencies" then some ("sourceDependencies", Scope.Preprocessor)
  else if strBegins flag "W" then some ("W", Scope.Compiler)
  else if strBegins flag "wd" then some ("wd", Scope.Compiler)
  else if strBegins flag "we" then some ("we", Scope.Compiler)
  else if strBegins flag "wo" then some ("wo", Scope.Compiler)
  else if strBegins flag "w" then some ("w", Scope.Compiler)
  else none

/-- The non-spaceable branch of `parse_argument` (src/vs/prepare.rs:242-277):
the `match flag` arms, in source order.  `arg` is the whole token (used in
the error), `flag` the token with its sigil stripped. -/
def parse_flag_token (arg flag : String) : Except String Arg :=
  if flag = "c" ∨ flag = "nologo" then .ok (.Flag .Ignore flag)
  else if flag = "bigobj" then .ok (.Flag .Compiler flag)
  else if flag = "FC" ∨ flag = "d2vzeroupper" ∨ flag = "fastfail" then .ok (.Flag .Shared flag)
  else if flag = "X" then .ok (.Flag .Preprocessor flag)
  else if strBegins flag "T" then .ok (.Param .Ignore "T" (strDrop 1 flag) false)
  else if strBegins flag "O" then .ok (.Flag .Shared flag)
  else if strBegins flag "G" then .ok (.Flag .Shared flag)
  else if strBegins flag "RTC" then .ok (.Flag .Shared flag)
  else if strBegins flag "Z" then .ok (.Flag .Shared flag)
  else if strBegins flag "d2Zi+" then .ok (.Flag .Shared flag)
  else if strBegins flag "std:" then .ok (.Flag .Shared flag)
  else if strBegins flag "MP" then .ok (.Flag .Compiler flag)
  else if strBegins flag "fsanitize=" then .ok (.Flag .Shared flag)
  else if strBegins flag "MD" then .ok (.Flag .Shared flag)
  else if strBegins flag "MT" then .ok (.Flag .Shared flag)
  else if strBegins flag "EH" then .ok (.Flag .Shared flag)
  else if strBegins flag "fp:" then .ok (.Flag .Shared flag)
  else if strBegins flag "arch:" then .ok (.Flag .Shared flag)
  else if strBegins flag "errorReport:" then .ok (.Flag .Shared flag)
  else if strBegins flag "source-charset:" then .ok (.Flag .Shared flag)
  else if strBegins flag "execution-charset:" then .ok (.Flag .Shared flag)
  else if strBegins flag "favor:" then .ok (.Flag .Shared flag)
  else if strBegins flag "Fo" then .ok (.Output .Object "Fo" (strDrop 2 flag))
  else if strBegins flag "Fp" then .ok (.Input .Precompiled "Fp" (strDrop 2 flag))
  else if strBegins flag "Yc" then .ok (.Output .Marker "Yc" (strDrop 2 flag))
  else if strBegins flag "Yu" then .ok (.Input .Marker "Yu" (strDrop 2 flag))
  else if strBegins flag "Yl" then .ok (.Flag .Shared flag)
  else if strBegins flag "FI" then .ok (.Param .Preprocessor "FI" (strDrop 2 flag) false)
  else if strBegins flag "analyze" then .ok (.Flag .Shared flag)
  else .error arg

/-- The `parse_arguments` loop over `parse_argument`
(src/vs/prepare.rs:199-287), fused into one recursion on the token list
(the iterator state).  Each step consumes the head token; a spaceable
flag that exactly equals its prefix also consumes the following token as
its value, and is reported as unknown when that token is absent or itself
starts with a sigil. -/
def parse_list : List String → List (Except String Arg)
  | [] => []
  | arg :: rest =>
    if has_param_sigil arg then
      match is_spaceable_param (strDrop 1 arg) with
      | some psc =>
        if strDrop 1 arg = psc.1 then
          match rest with
          | [] => [Except.error arg]
          | value :: rest2 =>
            if has_param_sigil value then Except.error arg :: parse_list rest2
            else Except.ok (Arg.Param psc.2 psc.1 value true) :: parse_list rest2
        else
          Except.ok (Arg.Param psc.2 psc.1 (strDrop psc.1.length (strDrop 1 arg)) false) ::
            parse_list rest
      | none => parse_flag_token arg (strDrop 1 arg) :: parse_list rest
    else Except.ok (Arg.Input InputKind.Source "" arg) :: parse_list rest

/-- The unknown tokens collected by the `parse_arguments` loop, in order. -/
def errsOf (rs : List (Except String Arg)) : List String :=
  rs.filterMap fun r => match r with | .error e => some e | .ok _ => none

/-- The successfully parsed arguments, in order. -/
def oksOf (rs : List (Except String Arg)) : List Arg :=
  rs.filterMap fun r => match r with | .ok a => some a | .error _ => none

/-- Model of `parse_arguments` (src/vs/prepare.rs:199-216): succeeds with
the parsed arguments when no token was unknown, otherwise fails with the
aggregated list of unknown tokens (the Rust code formats this list into
one error string). -/
def parse_arguments (args : List String) : Except (List String) (List Arg) :=
  if (errsOf (parse_list args)).isEmpty then .ok (oksOf (parse_list args))
  else .error (errsOf (parse_list args))

/-! Path handling used by `create_tasks` (src/vs/prepare.rs), modelling the
Rust std `Path` operations the source calls, for Unix-style string paths
without trailing `.`/`..` components. -/

/-- Splits a character list into the part up to and including the last
slash, and the file name after it. -/
def splitFile : List Char → List Char × List Char
  | [] => ([], [])
  | c :: cs =>
    if '/' ∈ cs then
      ((splitFile cs).1.cons c, (splitFile cs).2)
    else if c = '/' then ([c], cs)
    else ([], c :: cs)

/-- Everything before the last dot of a list known to contain a dot. -/
def chopExt : List Char → List Char
  | [] => []
  | c :: cs => if '.' ∈ cs then c :: chopExt cs else []

/-- Model of Rust `Path::file_stem` on a non-empty file name: the part
before the last dot, except that a dot in first position (as in
`.gitignore`) does not start an extension. -/
def stemOf : List Char → List Char
  | [] => []
  | c :: cs => if '.' ∈ cs then c :: chopExt cs else c :: cs

/-- Model of Rust `Path::with_extension`: replaces (or appends) the
extension of the file name; paths without a file name are unchanged. -/
def withExtension (p e : String) : String :=
  if (splitFile p.toList).2 = [] then p
  else if e.toList = [] then ⟨(splitFile p.toList).1 ++ stemOf (splitFile p.toList).2⟩
  else ⟨(splitFile p.toList).1 ++ stemOf (splitFile p.toList).2 ++ '.' :: e.toList⟩

/-- Model of Rust `Path::file_name` (for paths not ending in a `.` or
`..` component). -/
def fileName (p : String) : Option String :=
  if (splitFile p.toList).2 = [] ∨ (splitFile p.toList).2 = ['.']
      ∨ (splitFile p.toList).2 = ['.', '.'] then none
  else some ⟨(splitFile p.toList).2⟩

/-- Model of Rust `Path::join` with a relative right operand. -/
def joinPath (dir name : String) : String :=
  if dir = "" then name
  else if dir.toList.getLast? = some '/' then dir ++ name
  else dir ++ "/" ++ name

/-- Model of Rust `Path::is_absolute` on Unix-style paths. -/
def isAbsolute (p : String) : Bool :=
  match p.toList with
  | [] => false
  | c :: _ => decide (c = '/')

/-- Modelled from the spec: `CommandInfo::absolutize` (crate::utils /
crate::compiler, not in src/) resolves a path against the invocation's
working directory; spec §4.1 "absolutized against the working
directory". -/
def absolutize (cwd p : String) : String :=
  if isAbsolute p then p else joinPath cwd p

/-- Result of `find_param`. -/
inductive ParamValue (α : Type) where
  | None
  | Single (v : α)
  | Many (vs : List α)
  deriving DecidableEq, Repr

/-- Modelled from the spec: `find_param` (crate::utils, not in src/)
returns the exactly-zero / exactly-one / many matches of the predicate
over the argument list (spec §4.1 post-parse extraction). -/
def find_param {α : Type} (args : List Arg) (f : Arg → Option α) : ParamValue α :=
  match args.filterMap f with
  | [] => .None
  | [x] => .Single x
  | x :: y :: xs => .Many (x :: y :: xs)

/-- Selector for explicit precompiled-header files
(src/vs/prepare.rs:33-40): `Input { kind: Precompiled }`. -/
def precompiledOf : Arg → Option String
  | .Input .Precompiled _ f => some f
  | _ => none

/-- Selector for PCH markers (src/vs/prepare.rs:50-60): an input marker
(`/Yu`) yields `true`, an output marker (`/Yc`) yields `false`, paired
with the marker file. -/
def markerOf : Arg → Option (Bool × String)
  | .Input .Marker _ f => some (true, f)
  | .Output .Marker _ f => some (false, f)
  | _ => none

/-- PCH argument record (crate::compiler::PCHArgs; modelled from the spec
data model §3: path, absolute path, optional marker). -/
structure PCHArgs where
  path : String
  path_abs : String
  marker : Option String
  deriving DecidableEq, Repr

/-- PCH usage (crate::compiler::PCHUsage; modelled from the spec data
model §3). -/
inductive PCHUsage where
  | None
  | In (args : PCHArgs)
  | Out (args : PCHArgs)
  deriving DecidableEq, Repr

/-- The marker-processing part of `create_tasks`
(src/vs/prepare.rs:49-94), given the already-extracted precompiled file. -/
def pch_usage_with (cwd : String) (args : List Arg)
    (precompiled_file : Option String) : Except String PCHUsage :=
  match find_param args markerOf with
  | .None => .ok PCHUsage.None
  | .Single iv =>
    let path := iv.2
    let precompiled_path :=
      match precompiled_file with
      | some v => v
      | none => withExtension path "pch"
    let abs := absolutize cwd precompiled_path
    let marker : Option String := if path = "" then none else some path
    .ok (if iv.1 then PCHUsage.In ⟨precompiled_path, abs, marker⟩
      else PCHUsage.Out ⟨precompiled_path, abs, marker⟩)
  | .Many _ => .error "Found too many precompiled header markers"

/-- The PCH-usage computation of `create_tasks` (src/vs/prepare.rs:32-94):
extracts the optional explicit precompiled file, then the single marker;
with no explicit `/Fp` path the PCH file path is the marker path with its
extension replaced by `pch`. -/
def pch_usage_of (cwd : String) (args : List Arg) : Except String PCHUsage :=
  match find_param args precompiledOf with
  | .Many _ => .error "Found too many precompiled header files"
  | .None => pch_usage_with cwd args none
  | .Single v => pch_usage_with cwd args (some v)

/-- Model of `get_output_object` (src/vs/prepare.rs:170-197).  The
filesystem query `Path::is_dir` is abstracted as the parameter `isd`;
the two `assert!(… .is_absolute())` calls are modelled as preconditions
of the theorems about this function. -/
def get_output_object (input_source : String) (output_object : Option String)
    (isd : String → Bool) : Except String String :=
  match output_object with
  | none => .ok (withExtension input_source "obj")
  | some path =>
    if isd path then
      match fileName input_source with
      | some name => .ok (withExtension (joinPath path name) "obj")
      | none => .error "Input file path does not contain file name"
    else .ok path

/-! Fingerprint (src/cache.rs:35-49).  The digest itself comes from the
external `sha1-hasher` crate, which is not part of the repository
sources; the following block is modelled from the spec ("SHA-1",
"160-bit digest"): the standard FIPS 180-1 SHA-1 over the written bytes,
with 32-bit words represented as `Nat` values below 2^32. -/

/-- Left rotation of a 32-bit word. -/
def rotl32 (k x : Nat) : Nat := x % 2 ^ (32 - k) * 2 ^ k + x / 2 ^ (32 - k)

/-- Modelled from the spec: SHA-1 message padding — a `0x80` byte, zeros
up to 56 mod 64, then the bit length as 64-bit big-endian. -/
def sha1Pad (msg : List Nat) : List Nat :=
  let lenBits := msg.length * 8
  msg ++ 128 :: List.replicate ((119 - msg.length % 64) % 64) 0 ++
    [lenBits / 2 ^ 56 % 256, lenBits / 2 ^ 48 % 256, lenBits / 2 ^ 40 % 256,
      lenBits / 2 ^ 32 % 256, lenBits / 2 ^ 24 % 256, lenBits / 2 ^ 16 % 256,
      lenBits / 2 ^ 8 % 256, lenBits % 256]

/-- Big-endian 32-bit words of a byte list. -/
def wordsBE : List Nat → List Nat
  | b0 :: b1 :: b2 :: b3 :: r => (((b0 * 256 + b1) * 256 + b2) * 256 + b3) :: wordsBE r
  | _ => []

/-- One message-schedule word from the most-recent-first word list. -/
def schedStep (r : List Nat) : Nat :=
  rotl32 1 (((r.getD 2 0 ^^^ r.getD 7 0) ^^^ r.getD 13 0) ^^^ r.getD 15 0)

/-- Extends the most-recent-first word list by `k` schedule words. -/
def schedule : Nat → List Nat → List Nat
  | 0, r => r
  | k + 1, r => schedule k (schedStep r :: r)

/-- The SHA-1 round function. -/
def sha1F (i b c d : Nat) : Nat :=
  if i < 20 then (b &&& c) ||| ((b ^^^ 4294967295) &&& d)
  else if i < 40 then (b ^^^ c) ^^^ d
  else if i < 60 then ((b &&& c) ||| (b &&& d)) ||| (c &&& d)
  else (b ^^^ c) ^^^ d

/-- The SHA-1 round constants. -/
def sha1K (i : Nat) : Nat :=
  if i < 20 then 1518500249
  else if i < 40 then 1859775393
  else if i < 60 then 2400959708
  else 3395469782

/-- The five SHA-1 working variables. -/
structure Sha1State where
  a : Nat
  b : Nat
  c : Nat
  d : Nat
  e : Nat
  deriving DecidableEq, Repr

/-- One SHA-1 round on the working variables; `iw` is the round index
paired with the schedule word. -/
def sha1Round (st : Sha1State) (iw : Nat × Nat) : Sha1State :=
  ⟨(rotl32 5 st.a + sha1F iw.1 st.b st.c st.d + st.e + sha1K iw.1 + iw.2) % 4294967296,
    st.a, rotl32 30 st.b, st.c, st.d⟩

/-- Processes one 64-byte block. -/
def sha1Block (h : Sha1State) (block : List Nat) : Sha1State :=
  let ws := (schedule 64 (wordsBE block).reverse).reverse
  let f := ws.enum.foldl sha1Round h
  ⟨(h.a + f.a) % 4294967296, (h.b + f.b) % 4294967296, (h.c + f.c) % 4294967296,
    (h.d + f.d) % 4294967296, (h.e + f.e) % 4294967296⟩

/-- Processes `k` 64-byte blocks of the padded message. -/
def sha1Chunks : Nat → List Nat → Sha1State → Sha1State
  | 0, _, h => h
  | k + 1, bytes, h => sha1Chunks k (bytes.drop 64) (sha1Block h (bytes.take 64))

/-- The SHA-1 initial state. -/
def sha1Init : Sha1State := ⟨1732584193, 4023233417, 2562383102, 271733878, 3285377520⟩

/-- A lowercase hexadecimal digit. -/
def hexDigit (n : Nat) : Char := if n < 10 then Char.ofNat (48 + n) else Char.ofNat (87 + n)

/-- Eight hexadecimal digits of one 32-bit word, most significant first. -/
def hexWord (n : Nat) : List Char :=
  [hexDigit (n / 2 ^ 28 % 16), hexDigit (n / 2 ^ 24 % 16), hexDigit (n / 2 ^ 20 % 16),
    hexDigit (n / 2 ^ 16 % 16), hexDigit (n / 2 ^ 12 % 16), hexDigit (n / 2 ^ 8 % 16),
    hexDigit (n / 2 ^ 4 % 16), hexDigit (n % 16)]

/-- Modelled from the spec: `Sha1::hexdigest` of the `sha1-hasher` crate —
the lowercase hex string of the SHA-1 digest of the accumulated bytes. -/
def sha1_hexdigest (msg : List Nat) : String :=
  let p := sha1Pad msg
  let h := sha1Chunks (p.length / 64) p sha1Init
  ⟨hexWord h.a ++ hexWord h.b ++ hexWord h.c ++ hexWord h.d ++ hexWord h.e⟩

/-- Model of `generate_hash` (src/cache.rs:35-49): writes the `params`
bytes followed by a zero byte into the hasher, then for each input file
its contents followed by a zero byte, and returns the hex digest.
`params` is given as its UTF-8 bytes, the inputs as their contents. -/
def generate_hash (params : List Nat) (inputs : List (List Nat)) : String :=
  sha1_hexdigest (inputs.foldl (fun acc content => acc ++ content ++ [0]) (params ++ [0]))

/-! Theorems. -/

theorem readExact_len_append (l r : List Nat) : readExact l.length (l ++ r) = some (l, r) := by
  induction l with
  | nil => rfl
  | cons b s ih => simp [readExact, ih]

theorem readExact_header (r : List Nat) : readExact 6 (HEADER ++ r) = some (HEADER, r) :=
  readExact_len_append HEADER r

theorem readExact_eq (n : Nat) (s : List Nat) :
    readExact n s = if n ≤ s.length then some (s.take n, s.drop n) else none := by
  induction n generalizing s with
  | zero => simp [readExact]
  | succ n ih =>
    cases s with
    | nil => simp [readExact]
    | cons b bs =>
      rw [readExact, ih]
      by_cases h : n ≤ bs.length
      · rw [if_pos h, if_pos (by simpa using Nat.succ_le_succ h)]
        simp
      · rw [if_neg h, if_neg (by simpa using fun hh => h (Nat.le_of_succ_le_succ hh))]

theorem le16_decode (n : Nat) (r : List Nat) (h : n < 65536) :
    read_le_u16 (le16 n ++ r) = some (n, r) := by
  simp only [le16, List.cons_append, List.nil_append, read_le_u16, Option.some.injEq,
    Prod.mk.injEq, and_true]
  omega

theorem le32_decode (n : Nat) (r : List Nat) (h : n < 4294967296) :
    read_le_u32 (le32 n ++ r) = some (n, r) := by
  simp only [le32, List.cons_append, List.nil_append, read_le_u32, Option.some.injEq,
    Prod.mk.injEq, and_true]
  omega

theorem read_files_append (outputs : List (List Nat)) (rest : List Nat)
    (h : ∀ c ∈ outputs, c.length < 4294967296) :
    read_files outputs.length
      ((outputs.map fun c => le32 (c.length % 4294967296) ++ c).flatten ++ rest)
      = .ok outputs := by
  induction outputs generalizing rest with
  | nil => simp [read_files]
  | cons c cs ih =>
    have hc : c.length % 4294967296 = c.length :=
      Nat.mod_eq_of_lt (h c (List.mem_cons_self c cs))
    rw [List.length_cons, List.map_cons, List.flatten_cons]
    simp only [List.append_assoc]
    rw [read_files, le32_decode _ _ (Nat.mod_lt _ (by norm_num))]
    dsimp only
    rw [hc, readExact_len_append]
    dsimp only
    rw [ih rest fun d hd => h d (List.mem_cons_of_mem c hd)]
    rfl

theorem write_read_roundtrip (outputs : List (List Nat))
    (hn : outputs.length < 65536)
    (hs : ∀ c ∈ outputs, c.length < 4294967296) :
    read_cache (write_cache outputs) outputs.length = .ok outputs := by
  unfold read_cache write_cache
  rw [List.append_assoc, readExact_header]
  dsimp only
  rw [if_neg fun hh => hh rfl, le16_decode _ _ (Nat.mod_lt _ (by norm_num))]
  dsimp only
  rw [Nat.mod_eq_of_lt hn, if_neg fun hh => hh rfl]
  have := read_files_append outputs [] hs
  rwa [List.append_nil] at this

theorem read_cache_bad_magic (data : List Nat) (n : Nat) (h : data.take 6 ≠ HEADER) :
    (read_cache data n).isOk = false := by
  unfold read_cache
  rw [readExact_eq]
  by_cases h6 : 6 ≤ data.length
  · rw [if_pos h6]
    dsimp only
    rw [if_pos h]
    rfl
  · rw [if_neg h6]
    rfl

theorem read_cache_count_mismatch (m n : Nat) (rest : List Nat)
    (hm : m < 65536) (hne : m ≠ n) :
    read_cache (HEADER ++ le16 m ++ rest) n = .error .invalidCount := by
  unfold read_cache
  rw [List.append_assoc, readExact_header]
  dsimp only
  rw [if_neg fun hh => hh rfl, le16_decode _ _ hm]
  dsimp only
  rw [if_pos hne]

/-- Claim C1 (amended): for every list of fewer than 65536 output files,
each smaller than 2^32 bytes, writing a cache entry with `write_cache`
and reading it back with `read_cache` over the same output-path count
succeeds and returns every output byte-identical, in the same order; and
`read_cache` fails on an entry whose first six bytes differ from the
magic `'O','B','C','F',0x00,0x01` or whose little-endian u16 count field
disagrees with the caller's output-list length.  (The Rust `as u16` /
`as u32` casts truncate the count and the per-file lengths, so the
round-trip fails for 65536 or more outputs.) -/
theorem cache_pack_unpack (outputs : List (List Nat))
    (hn : outputs.length < 65536)
    (hs : ∀ c ∈ outputs, c.length < 4294967296) :
    read_cache (write_cache outputs) outputs.length = .ok outputs
    ∧ (∀ data n, data.take 6 ≠ HEADER → (read_cache data n).isOk = false)
    ∧ ∀ m rest, m < 65536 → m ≠ outputs.length →
        read_cache (HEADER ++ le16 m ++ rest) outputs.length = .error .invalidCount :=
  ⟨write_read_roundtrip outputs hn hs,
    fun data n h => read_cache_bad_magic data n h,
    fun m rest hm hne => read_cache_count_mismatch m _ rest hm hne⟩

theorem cache_pack_unpack_witness :
    read_cache (write_cache [[1, 2], []]) 2 = .ok [[1, 2], []]
    ∧ (read_cache [9, 9, 9, 9, 9, 9, 2, 0] 2).isOk = false
    ∧ read_cache (HEADER ++ le16 7 ++ []) 2 = .error .invalidCount := by
  obtain ⟨h1, h2, h3⟩ := cache_pack_unpack [[1, 2], []] (by decide) (by decide)
  exact ⟨h1, h2 [9, 9, 9, 9, 9, 9, 2, 0] 2 (by decide), h3 7 [] (by decide) (by decide)⟩

/-- Claim C1 counterexample: with 65536 output files the `as u16` cast in
`write_cache` truncates the stored count to 0, so reading the entry back
over the same output list fails instead of round-tripping. -/
theorem cache_pack_unpack_counterexample :
    read_cache (write_cache (List.replicate 65536 ([] : List Nat))) 65536
      = .error .invalidCount
    ∧ (Except.error .invalidCount : Except CacheError (List (List Nat)))
        ≠ .ok (List.replicate 65536 []) := by
  constructor
  · rw [write_cache, List.length_replicate, Nat.mod_self]
    exact read_cache_count_mismatch 0 65536 _ (by norm_num) (by norm_num)
  · intro h
    exact Except.noConfusion h

/-- Claim C2: `run_cached` hit/miss contract — when the entry for the
computed fingerprint is read back successfully the call returns success
without invoking the worker and leaves the entry unchanged; when reading
fails for any reason the worker is invoked exactly once and, on worker
success, a fresh entry packed from the produced outputs is written for
that fingerprint. -/
theorem run_cached_contract (entry : Option (List Nat)) (n : Nat)
    (worker : Except Unit (List (List Nat))) :
    ((readEntry entry n).isOk = true →
      run_cached entry n worker = ⟨true, 0, entry⟩)
    ∧ ((readEntry entry n).isOk = false →
        (run_cached entry n worker).workerCalls = 1
        ∧ ∀ produced, worker = .ok produced →
            run_cached entry n worker = ⟨true, 1, some (write_cache produced)⟩) := by
  cases h : readEntry entry n with
  | ok v =>
    refine ⟨fun _ => ?_, fun hf => ?_⟩
    · unfold run_cached
      rw [h]
    · simp [Except.isOk, Except.toBool] at hf
  | error e =>
    refine ⟨fun ht => ?_, fun _ => ⟨?_, fun produced hw => ?_⟩⟩
    · simp [Except.isOk, Except.toBool] at ht
    · unfold run_cached
      rw [h]
      cases worker <;> rfl
    · unfold run_cached
      rw [h, hw]

theorem run_cached_contract_witness :
    run_cached (some (write_cache [[5]])) 1 (.error ()) = ⟨true, 0, some (write_cache [[5]])⟩
    ∧ (run_cached none 1 (.ok [[7]])).workerCalls = 1
    ∧ run_cached none 1 (.ok [[7]]) = ⟨true, 1, some (write_cache [[7]])⟩ :=
  ⟨(run_cached_contract (some (write_cache [[5]])) 1 (.error ())).1 (by decide),
    ((run_cached_contract none 1 (.ok [[7]])).2 (by decide)).1,
    ((run_cached_contract none 1 (.ok [[7]])).2 (by decide)).2 [[7]] rfl⟩

theorem flat_writes_payload (l : List (List Nat)) :
    (((l.map fun c =>
        [FsOp.writeBytes (le32 (c.length % 4294967296)), FsOp.writeBytes c]).flatten).filterMap
          FsOp.payload).flatten
      = (l.map fun c => le32 (c.length % 4294967296) ++ c).flatten := by
  induction l with
  | nil => rfl
  | cons c cs ih =>
    rw [List.map_cons, List.flatten_cons, List.filterMap_append, List.flatten_append, ih,
      List.map_cons, List.flatten_cons]
    simp [FsOp.payload]

theorem flat_writes_no_rename (l : List (List Nat)) :
    ((l.map fun c =>
        [FsOp.writeBytes (le32 (c.length % 4294967296)), FsOp.writeBytes c]).flatten).any
          FsOp.isRename = false := by
  induction l with
  | nil => rfl
  | cons c cs ih => simp [FsOp.isRename, ih]

/-- Claim C4 (amended): `write_cache` does not materialize the entry into
a temporary sibling file and does not rename: its first filesystem
operation creates the final entry path directly, no rename operation
occurs in its trace, and the bytes it writes (header, count, then each
output's length and contents) concatenate to the entry produced by
`write_cache` — so a concurrent reader can observe a partially written
entry at the final path (which `read_cache` then rejects). -/
theorem write_cache_no_temp_rename (path : String) (outputs : List (List Nat)) :
    (write_cache_trace path outputs).head? = some (FsOp.create path)
    ∧ (write_cache_trace path outputs).any FsOp.isRename = false
    ∧ ((write_cache_trace path outputs).filterMap FsOp.payload).flatten = write_cache outputs := by
  refine ⟨rfl, ?_, ?_⟩
  · simp [write_cache_trace, FsOp.isRename, flat_writes_no_rename]
  · rw [write_cache_trace, write_cache]
    show (HEADER :: le16 (outputs.length % 65536) ::
        List.filterMap FsOp.payload ((outputs.map fun c =>
          [FsOp.writeBytes (le32 (c.length % 4294967296)),
            FsOp.writeBytes c]).flatten)).flatten = _
    rw [List.flatten_cons, List.flatten_cons, flat_writes_payload]
    simp [List.append_assoc]

/-- Claim C4 counterexample: at entry path `".h"` with one two-byte
output, the filesystem trace of `write_cache` is exactly a create of the
final path followed by four writes — no temporary file is created and no
rename into place happens, contradicting the claimed
temporary-sibling-then-rename scheme. -/
theorem write_cache_rename_counterexample :
    write_cache_trace ".h" [[1, 2]]
      = [FsOp.create ".h", FsOp.writeBytes HEADER, FsOp.writeBytes [1, 0],
          FsOp.writeBytes [2, 0, 0, 0], FsOp.writeBytes [1, 2]]
    ∧ (write_cache_trace ".h" [[1, 2]]).any FsOp.isRename = false := by decide

theorem foldl_zero_framing (l : List (List Nat)) (b : List Nat) :
    l.foldl (fun acc content => acc ++ content ++ [0]) b
      = b ++ (l.map fun c => c ++ [0]).flatten := by
  induction l generalizing b with
  | nil => simp
  | cons c cs ih =>
    rw [List.foldl_cons, ih, List.map_cons, List.flatten_cons]
    simp [List.append_assoc]

/-- Claim C3: the fingerprint is the SHA-1 hex digest of the byte
sequence formed, in fixed order, by the `params` bytes followed by a zero
byte, then for each input file in list order its full contents followed
by a zero byte; and byte-identical `(params, input contents)` always
yield the identical digest. -/
theorem generate_hash_framing (params : List Nat) (inputs : List (List Nat)) :
    generate_hash params inputs
      = sha1_hexdigest (params ++ [0] ++ (inputs.map fun c => c ++ [0]).flatten)
    ∧ ∀ params2 inputs2, params = params2 → inputs = inputs2 →
        generate_hash params inputs = generate_hash params2 inputs2 := by
  constructor
  · unfold generate_hash
    rw [foldl_zero_framing]
  · intro params2 inputs2 hp hi
    rw [hp, hi]

theorem generate_hash_framing_witness :
    generate_hash [97] [[98]]
      = sha1_hexdigest ([97] ++ [0] ++ ([[98]].map fun c => c ++ [0]).flatten)
    ∧ generate_hash [97] [[98]] = generate_hash [97] [[98]] :=
  ⟨(generate_hash_framing [97] [[98]]).1,
    (generate_hash_framing [97] [[98]]).2 [97] [[98]] rfl rfl⟩

/-- Claim C10: the fingerprint framing is not injective — the single
input file with bytes `'a', 0x00, 'b'` and the two input files `'a'` and
`'b'` feed the identical byte stream to the hasher, hence produce the
identical digest, although the `(params, input contents)` pairs are
distinct. -/
theorem generate_hash_not_injective :
    generate_hash [112] [[97, 0, 98]] = generate_hash [112] [[97], [98]]
    ∧ (([112], [[97, 0, 98]]) : List Nat × List (List Nat)) ≠ ([112], [[97], [98]]) := by
  constructor
  · unfold generate_hash
    exact congrArg sha1_hexdigest (by decide)
  · decide

/-- Claim C6: the repository fixture
`/TP /c /Yusample.h /Fpsample.h.pch /Fosample.cpp.o /DTEST /D TEST2
/arch:AVX /fsanitize=address sample.cpp` parses successfully to exactly
the ten-element sequence of the test in src/vs/prepare.rs:312-335, in
order. -/
theorem parse_fixture_ten_args :
    parse_arguments ["/TP", "/c", "/Yusample.h", "/Fpsample.h.pch", "/Fosample.cpp.o",
        "/DTEST", "/D", "TEST2", "/arch:AVX", "/fsanitize=address", "sample.cpp"]
      = .ok [Arg.Param .Ignore "T" "P" false,
          Arg.Flag .Ignore "c",
          Arg.Input .Marker "Yu" "sample.h",
          Arg.Input .Precompiled "Fp" "sample.h.pch",
          Arg.Output .Object "Fo" "sample.cpp.o",
          Arg.Param .Shared "D" "TEST" false,
          Arg.Param .Shared "D" "TEST2" true,
          Arg.Flag .Shared "arch:AVX",
          Arg.Flag .Shared "fsanitize=address",
          Arg.Input .Source "" "sample.cpp"]
    ∧ [Arg.Param .Ignore "T" "P" false,
        Arg.Flag .Ignore "c",
        Arg.Input .Marker "Yu" "sample.h",
        Arg.Input .Precompiled "Fp" "sample.h.pch",
        Arg.Output .Object "Fo" "sample.cpp.o",
        Arg.Param .Shared "D" "TEST" false,
        Arg.Param .Shared "D" "TEST2" true,
        Arg.Flag .Shared "arch:AVX",
        Arg.Flag .Shared "fsanitize=address",
        Arg.Input .Source "" "sample.cpp"].length = 10 := by decide

theorem parse_list_spaceable_head (tok : String) (sc : Scope) (rest : List String)
    (hpfx : has_param_sigil tok = true)
    (hsp : is_spaceable_param (strDrop 1 tok) = some (strDrop 1 tok, sc)) :
    (rest = [] → parse_list (tok :: rest) = [Except.error tok])
    ∧ ∀ v rs, rest = v :: rs → has_param_sigil v = true →
        parse_list (tok :: rest) = Except.error tok :: parse_list rs := by
  constructor
  · intro h
    subst h
    simp [parse_list, hpfx, hsp]
  · intro v rs h hv
    subst h
    simp [parse_list, hpfx, hsp, hv]

theorem parse_list_err_head (tok : String) (sc : Scope) (rest : List String)
    (hpfx : has_param_sigil tok = true)
    (hsp : is_spaceable_param (strDrop 1 tok) = some (strDrop 1 tok, sc))
    (hrest : rest = [] ∨ ∃ v rs, rest = v :: rs ∧ has_param_sigil v = true) :
    Except.error tok ∈ parse_list (tok :: rest) := by
  rcases hrest with h | ⟨v, rs, h, hv⟩
  · rw [(parse_list_spaceable_head tok sc rest hpfx hsp).1 h]
    exact List.mem_singleton.mpr rfl
  · rw [(parse_list_spaceable_head tok sc rest hpfx hsp).2 v rs h hv]
    exact List.mem_cons_self _ _

theorem parse_list_err_of_bad (tok : String) (sc : Scope) (rest : List String)
    (hpfx : has_param_sigil tok = true)
    (hsp : is_spaceable_param (strDrop 1 tok) = some (strDrop 1 tok, sc))
    (hrest : rest = [] ∨ ∃ v rs, rest = v :: rs ∧ has_param_sigil v = true) :
    ∀ (n : Nat) (pre : List String), pre.length ≤ n →
      ∃ e, Except.error e ∈ parse_list (pre ++ tok :: rest) := by
  intro n
  induction n with
  | zero =>
    intro pre hlen
    have hpre : pre = [] := List.length_eq_zero.mp (Nat.le_zero.mp hlen)
    subst hpre
    exact ⟨tok, parse_list_err_head tok sc rest hpfx hsp hrest⟩
  | succ n ih =>
    intro pre hlen
    cases pre with
    | nil => exact ⟨tok, parse_list_err_head tok sc rest hpfx hsp hrest⟩
    | cons a pre2 =>
      rw [List.cons_append]
      cases ha : has_param_sigil a with
      | false =>
        obtain ⟨e, he⟩ := ih pre2 (by simpa using Nat.le_of_succ_le_succ hlen)
        refine ⟨e, ?_⟩
        simp only [parse_list, ha, Bool.false_eq_true, if_false]
        exact List.mem_cons_of_mem _ he
      | true =>
        cases hsp2 : is_spaceable_param (strDrop 1 a) with
        | none =>
          obtain ⟨e, he⟩ := ih pre2 (by simpa using Nat.le_of_succ_le_succ hlen)
          refine ⟨e, ?_⟩
          simp only [parse_list, ha, if_true, hsp2]
          exact List.mem_cons_of_mem _ he
        | some psc =>
          by_cases heq : strDrop 1 a = psc.1
          · cases pre2 with
            | nil =>
              refine ⟨a, ?_⟩
              rw [List.nil_append]
              simp only [parse_list, ha, if_true, hsp2]
              rw [if_pos heq]
              rw [hpfx, if_pos rfl]
              exact List.mem_cons_self _ _
            | cons b pre3 =>
              cases hb : has_param_sigil b with
              | true =>
                refine ⟨a, ?_⟩
                simp only [parse_list, ha, if_true, hsp2, List.cons_append]
                rw [if_pos heq]
                rw [hb, if_pos rfl]
                exact List.mem_cons_self _ _
              | false =>
                obtain ⟨e, he⟩ := ih pre3 (by
                  have := hlen
                  simp only [List.length_cons] at this ⊢
                  omega)
                refine ⟨e, ?_⟩
                simp only [parse_list, ha, if_true, hsp2, List.cons_append]
                rw [if_pos heq]
                rw [hb, if_neg (by simp)]
                exact List.mem_cons_of_mem _ he
          · obtain ⟨e, he⟩ := ih pre2 (by simpa using Nat.le_of_succ_le_succ hlen)
            refine ⟨e, ?_⟩
            simp only [parse_list, ha, if_true, hsp2]
            rw [if_neg heq]
            exact List.mem_cons_of_mem _ he

theorem parse_arguments_err_of_mem (l : List String) (e : String)
    (h : Except.error e ∈ parse_list l) :
    ∃ errs, parse_arguments l = Except.error errs ∧ e ∈ errs := by
  have hm : e ∈ errsOf (parse_list l) := by
    unfold errsOf
    exact List.mem_filterMap.mpr ⟨.error e, h, rfl⟩
  have hne : (errsOf (parse_list l)).isEmpty = false := by
    cases herr : errsOf (parse_list l) with
    | nil =>
      rw [herr] at hm
      cases hm
    | cons x xs => rfl
  refine ⟨errsOf (parse_list l), ?_, hm⟩
  unfold parse_arguments
  rw [hne]
  simp

/-- Claim C7 (amended): for every argv in which a spaceable-prefix flag
equals its prefix exactly and is the last token or is followed by a token
beginning with a sigil, the parse returns an aggregated error rather
than succeeding; the flag itself is reported among the unknown arguments
whenever the parser reaches it at the head of the remaining token stream
(an immediately preceding value-less spaceable flag may instead consume
it as its attempted value, in which case that earlier flag is the one
reported). -/
theorem spaceable_missing_value_fails (pre : List String) (tok : String) (sc : Scope)
    (rest : List String)
    (hpfx : has_param_sigil tok = true)
    (hsp : is_spaceable_param (strDrop 1 tok) = some (strDrop 1 tok, sc))
    (hrest : rest = [] ∨ ∃ v rs, rest = v :: rs ∧ has_param_sigil v = true) :
    (∃ errs, parse_arguments (pre ++ tok :: rest) = Except.error errs)
    ∧ ∃ errs, parse_arguments (tok :: rest) = Except.error errs ∧ tok ∈ errs := by
  constructor
  · obtain ⟨e, he⟩ := parse_list_err_of_bad tok sc rest hpfx hsp hrest pre.length pre le_rfl
    obtain ⟨errs, h1, _⟩ := parse_arguments_err_of_mem _ e he
    exact ⟨errs, h1⟩
  · exact parse_arguments_err_of_mem _ tok (parse_list_err_head tok sc rest hpfx hsp hrest)

theorem spaceable_missing_value_fails_witness :
    (∃ errs, parse_arguments ["/c", "/I"] = Except.error errs)
    ∧ ∃ errs, parse_arguments ["/I"] = Except.error errs ∧ "/I" ∈ errs :=
  spaceable_missing_value_fails ["/c"] "/I" Scope.Preprocessor [] (by decide) (by decide)
    (Or.inl rfl)

/-- Claim C7 counterexample: in the argv `/D /I` the token `/I` is a
spaceable-prefix flag equal to its prefix and is the last token, yet the
aggregated error lists only `/D` — the preceding `/D` consumed `/I` as
its attempted value — so not every such flag is reported among the
unknown arguments. -/
theorem swallowed_spaceable_flag_counterexample :
    parse_arguments ["/D", "/I"] = Except.error ["/D"]
    ∧ ¬("/I" ∈ ["/D"]) := by decide

/-- Claim C8: for every argument list containing exactly one PCH marker
and no explicit `/Fp` precompiled path, the resulting PCH usage (`In` for
a `/Yu` input marker, `Out` for `/Yc`) has its file path derived from the
marker path with the extension replaced by `pch`, and carries the marker
itself. -/
theorem implicit_pch_path (cwd : String) (args : List Arg) (inp : Bool) (path : String)
    (hm : find_param args markerOf = .Single (inp, path))
    (hp : find_param args precompiledOf = .None)
    (hne : path ≠ "") :
    pch_usage_of cwd args =
      .ok (if inp then
          PCHUsage.In ⟨withExtension path "pch",
            absolutize cwd (withExtension path "pch"), some path⟩
        else
          PCHUsage.Out ⟨withExtension path "pch",
            absolutize cwd (withExtension path "pch"), some path⟩) := by
  unfold pch_usage_of
  rw [hp]
  unfold pch_usage_with
  rw [hm]
  simp [hne]

theorem implicit_pch_path_witness :
    pch_usage_of "/w" [Arg.Input .Marker "Yu" "sample.h", Arg.Flag .Ignore "c",
        Arg.Input .Source "" "sample.cpp"] =
      .ok (PCHUsage.In ⟨"sample.pch", "/w/sample.pch", some "sample.h"⟩) := by
  have h := implicit_pch_path "/w" [Arg.Input .Marker "Yu" "sample.h", Arg.Flag .Ignore "c",
    Arg.Input .Source "" "sample.cpp"] true "sample.h" (by decide) (by decide) (by decide)
  exact h.trans (by decide)

theorem strToList_append (a b : String) : (a ++ b).toList = a.toList ++ b.toList :=
  String.data_append a b

theorem isAbsolute_cons (p : String) (h : isAbsolute p = true) :
    ∃ t, p.toList = '/' :: t := by
  unfold isAbsolute at h
  cases hc : p.toList with
  | nil =>
    rw [hc] at h
    simp at h
  | cons c t =>
    rw [hc] at h
    simp only [decide_eq_true_eq] at h
    subst h
    exact ⟨t, rfl⟩

theorem isAbsolute_append (a b : String) (h : isAbsolute a = true) :
    isAbsolute (a ++ b) = true := by
  obtain ⟨t, ht⟩ := isAbsolute_cons a h
  unfold isAbsolute
  rw [strToList_append, ht]
  rfl

theorem joinPath_absolute (dir name : String) (h : isAbsolute dir = true) :
    isAbsolute (joinPath dir name) = true := by
  obtain ⟨t, ht⟩ := isAbsolute_cons dir h
  have hdir : dir ≠ "" := by
    intro he
    subst he
    simp at ht
  unfold joinPath
  rw [if_neg hdir]
  by_cases hl : dir.toList.getLast? = some '/'
  · rw [if_pos hl]
    exact isAbsolute_append dir name h
  · rw [if_neg hl]
    exact isAbsolute_append (dir ++ "/") name (isAbsolute_append dir "/" h)

theorem absolutize_absolute (cwd p : String) (h : isAbsolute cwd = true) :
    isAbsolute (absolutize cwd p) = true := by
  unfold absolutize
  by_cases hp : isAbsolute p = true
  · rw [if_pos hp]
    exact hp
  · rw [if_neg hp]
    exact joinPath_absolute cwd p h

theorem splitFile_fst_slash (t : List Char) :
    ∃ d, (splitFile ('/' :: t)).1 = '/' :: d := by
  by_cases h : '/' ∈ t
  · exact ⟨(splitFile t).1, by rw [splitFile, if_pos h]⟩
  · exact ⟨[], by rw [splitFile, if_neg h, if_pos rfl]⟩

theorem withExtension_absolute (p e : String) (h : isAbsolute p = true) :
    isAbsolute (withExtension p e) = true := by
  obtain ⟨t, ht⟩ := isAbsolute_cons p h
  unfold withExtension
  rw [ht]
  obtain ⟨d, hd⟩ := splitFile_fst_slash t
  rw [hd]
  by_cases hn : (splitFile ('/' :: t)).2 = []
  · rw [if_pos hn]
    exact h
  · rw [if_neg hn]
    by_cases he : e.toList = []
    · rw [if_pos he]
      rfl
    · rw [if_neg he]
      rfl

/-- Claim C9 (amended): output objects are absolute whenever the input
source and any explicit `/Fo` path are absolute (as `create_tasks`
guarantees by absolutizing both, given an absolute working directory);
with no `/Fo` the output object is the input source with its extension
replaced by `obj`; and when the single `/Fo` path names a directory the
output object is that directory with the input source's basename
appended and the extension replaced by `obj`. -/
theorem output_object_resolution (input : String) (out : Option String)
    (isd : String → Bool) (cwd p : String)
    (hin : isAbsolute input = true)
    (hout : ∀ o, out = some o → isAbsolute o = true) :
    (∀ r, get_output_object input out isd = .ok r → isAbsolute r = true)
    ∧ get_output_object input none isd = .ok (withExtension input "obj")
    ∧ (∀ o name, out = some o → isd o = true → fileName input = some name →
        get_output_object input out isd = .ok (withExtension (joinPath o name) "obj"))
    ∧ (isAbsolute cwd = true → isAbsolute (absolutize cwd p) = true) := by
  refine ⟨?_, rfl, ?_, fun hc => absolutize_absolute cwd p hc⟩
  · intro r hr
    cases out with
    | none =>
      unfold get_output_object at hr
      cases hr
      exact withExtension_absolute input "obj" hin
    | some o =>
      have ho : isAbsolute o = true := hout o rfl
      unfold get_output_object at hr
      dsimp only at hr
      by_cases hd : isd o = true
      · rw [if_pos hd] at hr
        cases hfn : fileName input with
        | none =>
          rw [hfn] at hr
          cases hr
        | some name =>
          rw [hfn] at hr
          cases hr
          exact withExtension_absolute _ "obj" (joinPath_absolute o name ho)
      · rw [if_neg hd] at hr
        cases hr
        exact ho
  · intro o name ho hd hn
    subst ho
    unfold get_output_object
    dsimp only
    rw [if_pos hd, hn]

theorem output_object_resolution_witness :
    (∀ r, get_output_object "/x/a.cpp" (some "/o") (fun _ => true) = .ok r →
      isAbsolute r = true)
    ∧ get_output_object "/x/a.cpp" none (fun _ => true) = .ok (withExtension "/x/a.cpp" "obj")
    ∧ get_output_object "/x/a.cpp" (some "/o") (fun _ => true)
        = .ok (withExtension (joinPath "/o" "a.cpp") "obj")
    ∧ isAbsolute (absolutize "/c" "r.txt") = true := by
  obtain ⟨h1, h2, h3, h4⟩ := output_object_resolution "/x/a.cpp" (some "/o") (fun _ => true)
    "/c" "r.txt" (by decide) (fun o ho => by
      injection ho with ho
      subst ho
      decide)
  exact ⟨h1, h2, h3 "/o" "a.cpp" rfl rfl (by decide), h4 (by decide)⟩

/-- Claim C9 counterexample: with input source `/x/sample.cpp` and a
single `/Fo` path `/o` that names a directory, the code produces
`/o/sample.obj` — the appended basename has its extension replaced by
`obj` — not the plain basename-append `/o/sample.cpp` the claim
describes. -/
theorem output_object_dir_counterexample :
    get_output_object "/x/sample.cpp" (some "/o") (fun _ => true) = .ok "/o/sample.obj"
    ∧ get_output_object "/x/sample.cpp" (some "/o") (fun _ => true)
        ≠ .ok (joinPath "/o" "sample.cpp") := by decide

end Octobuild
